import Mathlib

/-!
Shallow embedding of the agent-memory retrieval-and-relationship engine
(`agent_memory/memory.py`, `graph.py`, `classify.py`, `consolidate.py`,
`surface.py`) and proofs about its specified behaviour.

Modelling conventions, used throughout:

* Python floats are modelled as `ℚ` (exact rationals); the numeric literals
  (`0.72`, `0.4`, …) become the corresponding rationals.
* ISO-8601 UTC timestamp strings compare lexicographically exactly as they
  compare chronologically, so timestamps are modelled as integers (`ℤ`,
  seconds); `timedelta(days=7)` becomes `7 * 86400`.
* SQLite rows become Lean structures; a table becomes a `List` of rows in
  insertion order.  `INSERT OR REPLACE` under a UNIQUE constraint deletes the
  conflicting rows and appends the new one.  One Python method that issues
  several statements followed by a single `commit()` is one Lean function:
  a state transition is atomic by construction, which is the intended model
  of "one transaction".
* `str.lower`/SQLite `LIKE` case folding is modelled with `String.toLower`
  (ASCII folding, which is exactly SQLite's `LIKE` folding).
* Helper predicates of `graph.py` that are implemented with `re.search` over
  fixed vocabulary patterns (`_has_contradiction_signals`,
  `_has_extension_signals`, `_shares_subject`, and the two vocabulary checks
  inside `_compute_confidence`) are kept abstract as fields of a
  `RegexOracles` parameter: the claims under verification treat them as named
  boolean signals, and every theorem below quantifies over all of their
  values.  The word-set helpers `_has_new_information` and
  `_has_inferrable_connection` are arithmetic over `str.split()` word sets
  and are embedded concretely.
-/


/-- ASCII lower-casing of one character.  Python's `str.lower` (and SQLite's
`LIKE` folding) is modelled as ASCII case folding. -/
def lowerChar (c : Char) : Char :=
  if 'A' ≤ c ∧ c ≤ 'Z' then Char.ofNat (c.toNat + 32) else c

/-- ASCII lower-casing of a string (model of `str.lower()`). -/
def lowerStr (s : String) : String :=
  String.mk (s.data.map lowerChar)

/-- Helper for `pysplit`: walk the characters, accumulating the current word
(in reverse) and emitting it at each whitespace run or at the end. -/
def splitWordsAux : List Char → List Char → List String
  | [], acc => if acc.isEmpty then [] else [String.mk acc.reverse]
  | c :: rest, acc =>
    if c.isWhitespace then
      if acc.isEmpty then splitWordsAux rest []
      else String.mk acc.reverse :: splitWordsAux rest []
    else splitWordsAux rest (c :: acc)

/-- Word splitting as Python's argumentless `str.split()`: split on runs of
whitespace and drop empty fragments. -/
def pysplit (s : String) : List String :=
  splitWordsAux s.data []

/-- Python's substring test `needle in haystack`. -/
def containsSubstr (haystack needle : String) : Bool :=
  haystack.data.tails.any (fun t => needle.data.isPrefixOf t)

/-- Row of the `memories` table (`memory.py` schema plus the `is_latest` and
`expires_at` columns added by `graph.py`).  `access_count` is nullable in
SQL (`access_count = 0 OR access_count IS NULL` is tested by the pruner), so
it is an `Option ℕ` here. -/
structure MemRecord where
  id : ℕ
  content : String
  layer : String
  memory_type : String
  salience : ℚ
  created_at : ℤ
  updated_at : ℤ
  accessed_at : Option ℤ
  access_count : Option ℕ
  metadata : Option String
  is_latest : Bool
  expires_at : Option ℤ
deriving Repr, DecidableEq

/-- Row of the `memory_edges` table.  The autoincrement row id is not
modelled (no claim mentions it); the UNIQUE(source_id, target_id, relation)
constraint is realised by `GraphMemory.add_edge` below. -/
structure Edge where
  source_id : ℕ
  target_id : ℕ
  relation : String
  confidence : ℚ
  created_at : ℤ
  metadata : Option String
deriving Repr, DecidableEq

/-- The persistent state: the `memories` table, the `memory_edges` table and
the `memory_embeddings` virtual table (memory_id paired with its vector). -/
structure Store where
  memories : List MemRecord
  edges : List Edge
  embeddings : List (ℕ × List ℚ)
deriving Repr, DecidableEq

namespace GraphMemory

/-- The `Relation` enum of `graph.py` (`extends` is a Lean keyword, hence
the constructor name `extendsRel`). -/
inductive Relation where
  | updates
  | extendsRel
  | derives
deriving Repr, DecidableEq

/-- String value of a `Relation`, as stored in the `relation` column. -/
def Relation.value : Relation → String
  | .updates => "updates"
  | .extendsRel => "extends"
  | .derives => "derives"

/-- `GraphMemory.add_edge`: `INSERT OR REPLACE` into `memory_edges` keyed by
the UNIQUE (source_id, target_id, relation) triple, and, when the relation is
`updates`, the `UPDATE memories SET is_latest = 0 WHERE id = target_id`
issued before the single `commit()`.  Both effects form this one transition. -/
def add_edge (st : Store) (source_id target_id : ℕ) (relation : String)
    (confidence : ℚ) (metadata : Option String) (now : ℤ) : Store :=
  let newEdge : Edge :=
    { source_id := source_id, target_id := target_id, relation := relation,
      confidence := confidence, created_at := now, metadata := metadata }
  let edges' := (st.edges.filter (fun e =>
      !(decide (e.source_id = source_id ∧ e.target_id = target_id ∧
                e.relation = relation)))) ++ [newEdge]
  let memories' :=
    if relation = "updates" then
      st.memories.map (fun m =>
        if m.id = target_id then { m with is_latest := false } else m)
    else st.memories
  { st with edges := edges', memories := memories' }

end GraphMemory

namespace LayerClassifier

/-- `HIGH_SALIENCE_KEYWORDS` from `classify.py`. -/
def HIGH_SALIENCE_KEYWORDS : List String :=
  ["decision", "decided", "important", "critical", "never", "always",
   "lesson", "learned", "mistake", "breakthrough", "preference",
   "correction", "emancipat", "directive", "rule", "principle"]

/-- `estimate_salience` from `classify.py`: start from the caller-supplied
base, add 0.1 per keyword contained in the lowered content, add the
type-keyed bonus, add 0.05 for each of the two word-count thresholds, and
take `min(1.0, salience)`.  Note the source has no lower clamp. -/
def estimate_salience (content : String) (memory_type : Option String)
    (base_salience : ℚ := 1/2) : ℚ :=
  let lower := lowerStr content
  let salience := base_salience
  let salience := HIGH_SALIENCE_KEYWORDS.foldl
    (fun s kw => if containsSubstr lower kw then s + 1/10 else s) salience
  let salience := salience +
    (match memory_type with
     | some "decision" => 2/10
     | some "preference" => 15/100
     | some "identity" => 25/100
     | some "correction" => 2/10
     | some "insight" => 15/100
     | some "error" => 1/10
     | _ => 0)
  let word_count := (pysplit content).length
  let salience := if word_count > 30 then salience + 5/100 else salience
  let salience := if word_count > 60 then salience + 5/100 else salience
  min 1 salience

end LayerClassifier

namespace GraphMemory

/-- Similarity threshold constants from `graph.py`. -/
def SIMILARITY_UPDATE_THRESHOLD : ℚ := 72/100

/-- Threshold above which a pair is a candidate for `extends`. -/
def SIMILARITY_EXTEND_THRESHOLD : ℚ := 65/100

/-- Threshold above which a pair is a candidate for `derives`. -/
def SIMILARITY_DERIVE_THRESHOLD : ℚ := 45/100

/-- The regex-vocabulary helper predicates of `GraphMemory`, kept abstract
(see the module comment): `contradiction_signals` stands for
`_has_contradiction_signals`, `extension_signals` for
`_has_extension_signals`, `shares_subject` for `_shares_subject`, and
`update_vocab` / `additive_vocab` for the two `re.search` vocabulary checks
inside `_compute_confidence`.  Every theorem quantifies over all values of
these fields, so it holds for the concrete regex predicates in particular. -/
structure RegexOracles where
  contradiction_signals : String → String → Bool
  extension_signals : String → String → Bool
  shares_subject : String → String → Bool
  update_vocab : String → Bool
  additive_vocab : String → Bool

/-- Distinct words of a text: Python's `set(text.split())`, as a
deduplicated list. -/
def wordSet (s : String) : List String := (pysplit s).dedup

/-- `GraphMemory._has_new_information`: more than 30% of the new text's
distinct words are absent from the existing text. -/
def has_new_information (new existing : String) : Bool :=
  let new_words := wordSet new
  let existing_words := wordSet existing
  let novel_words := new_words.filter (fun w => decide (w ∉ existing_words))
  decide ((novel_words.length : ℚ) / ((max new_words.length 1 : ℕ) : ℚ) > 3/10)

/-- `GraphMemory._has_inferrable_connection`: the word-overlap ratio
(distinct-word intersection over the smaller distinct-word set, floored at
1) lies strictly between 0.15 and 0.5. -/
def has_inferrable_connection (new existing : String) : Bool :=
  let new_words := wordSet new
  let existing_words := wordSet existing
  let inter := new_words.filter (fun w => decide (w ∈ existing_words))
  let overlap : ℚ :=
    (inter.length : ℚ) / ((max (min new_words.length existing_words.length) 1 : ℕ) : ℚ)
  decide (15/100 < overlap ∧ overlap < 5/10)

/-- `GraphMemory._classify_relationship`.  Python's early returns inside the
two `if similarity >= ...` blocks are rendered as one if-chain; the
fall-through structure is preserved exactly (in particular branch two is
still guarded by the 0.72 threshold of its enclosing block). -/
def classify_relationship (o : RegexOracles) (new existing : String)
    (similarity : ℚ) : Option Relation :=
  if SIMILARITY_UPDATE_THRESHOLD ≤ similarity ∧
      o.contradiction_signals (lowerStr new) (lowerStr existing) = true then
    some Relation.updates
  else if SIMILARITY_UPDATE_THRESHOLD ≤ similarity ∧ 85/100 ≤ similarity ∧
      (existing.length : ℚ) * (5/10) < (new.length : ℚ) then
    some Relation.extendsRel
  else if SIMILARITY_EXTEND_THRESHOLD ≤ similarity ∧
      o.contradiction_signals (lowerStr new) (lowerStr existing) = true ∧
      o.shares_subject (lowerStr new) (lowerStr existing) = true then
    some Relation.updates
  else if SIMILARITY_EXTEND_THRESHOLD ≤ similarity ∧
      o.extension_signals (lowerStr new) (lowerStr existing) = true then
    some Relation.extendsRel
  else if SIMILARITY_EXTEND_THRESHOLD ≤ similarity ∧
      o.shares_subject (lowerStr new) (lowerStr existing) = true ∧
      has_new_information (lowerStr new) (lowerStr existing) = true then
    some Relation.extendsRel
  else if SIMILARITY_DERIVE_THRESHOLD ≤ similarity ∧
      similarity < SIMILARITY_EXTEND_THRESHOLD ∧
      has_inferrable_connection (lowerStr new) (lowerStr existing) = true then
    some Relation.derives
  else none

/-- The classification policy exactly as the claim words it: a flat
first-match-wins priority list with the seven numbered rules, rule two
requiring similarity at least 0.85, a longer-than-half length test and the
absence of contradiction signals. -/
def classify_relationship_claim (o : RegexOracles) (new existing : String)
    (similarity : ℚ) : Option Relation :=
  if 72/100 ≤ similarity ∧
      o.contradiction_signals (lowerStr new) (lowerStr existing) = true then
    some Relation.updates
  else if 85/100 ≤ similarity ∧
      (existing.length : ℚ) * (5/10) < (new.length : ℚ) ∧
      ¬ o.contradiction_signals (lowerStr new) (lowerStr existing) = true then
    some Relation.extendsRel
  else if 65/100 ≤ similarity ∧
      o.contradiction_signals (lowerStr new) (lowerStr existing) = true ∧
      o.shares_subject (lowerStr new) (lowerStr existing) = true then
    some Relation.updates
  else if 65/100 ≤ similarity ∧
      o.extension_signals (lowerStr new) (lowerStr existing) = true then
    some Relation.extendsRel
  else if 65/100 ≤ similarity ∧
      o.shares_subject (lowerStr new) (lowerStr existing) = true ∧
      has_new_information (lowerStr new) (lowerStr existing) = true then
    some Relation.extendsRel
  else if 45/100 ≤ similarity ∧ similarity < 65/100 ∧
      has_inferrable_connection (lowerStr new) (lowerStr existing) = true then
    some Relation.derives
  else none

/-- Rounding to three decimal places.  Python's `round(x, 3)` on floats is
banker's rounding over the binary value; it is idealised here as rounding
half-up over `ℚ`.  No claim under verification depends on the rounded
confidence value. -/
def round3 (x : ℚ) : ℚ := ((round (x * 1000) : ℤ) : ℚ) / 1000

/-- `GraphMemory._compute_confidence`. -/
def compute_confidence (o : RegexOracles) (relation : Relation)
    (similarity : ℚ) (new existing : String) : ℚ :=
  let base := similarity
  let base :=
    match relation with
    | Relation.updates =>
        if o.update_vocab (lowerStr new) = true then min (base + 15/100) 1 else base
    | Relation.extendsRel =>
        if o.additive_vocab (lowerStr new) = true then min (base + 1/10) 1 else base
    | Relation.derives => base * (7/10)
  round3 base

/-- One entry of the `similar_memories` argument of `detect_relationships`:
the dictionaries produced by `Memory.search`, of which the detector reads
`id`, `relevance` (defaulting to 0) and `content` (defaulting to ""); the
defaults are modelled by the fields being total. -/
structure Candidate where
  id : ℕ
  relevance : ℚ
  content : String
deriving Repr, DecidableEq

/-- One detected relationship dictionary as built by
`GraphMemory.detect_relationships`. -/
structure DetectedRel where
  source_id : ℕ
  target_id : ℕ
  relation : String
  confidence : ℚ
  existing_content : String
deriving Repr, DecidableEq

/-- `GraphMemory.detect_relationships`: for each candidate other than the
new memory itself, classify the pair and, when a relation is found, append
a relationship record. -/
def detect_relationships (o : RegexOracles) (new_memory_id : ℕ)
    (new_content : String) (similar_memories : List Candidate) : List DetectedRel :=
  similar_memories.foldl (fun relationships existing =>
    if existing.id = new_memory_id then relationships
    else
      let similarity := existing.relevance
      let existing_content := existing.content
      match classify_relationship o new_content existing_content similarity with
      | some relation =>
          relationships ++
            [{ source_id := new_memory_id, target_id := existing.id,
               relation := relation.value,
               confidence := compute_confidence o relation similarity
                 new_content existing_content,
               existing_content := existing_content.take 100 }]
      | none => relationships) []

end GraphMemory

namespace GraphMemory

/-- Time part of the WHERE clause of `expire_memories`: the record has a
non-null `expires_at` that is earlier than the sweep time (SQL
`expires_at IS NOT NULL AND expires_at < now`). -/
def timeExpired (now : ℤ) (m : MemRecord) : Bool :=
  match m.expires_at with
  | some t => decide (t < now)
  | none => false

/-- Full WHERE clause of `expire_memories`: expired by time and still
marked latest. -/
def hasExpired (now : ℤ) (m : MemRecord) : Bool :=
  timeExpired now m && m.is_latest

/-- `GraphMemory.expire_memories`: one `UPDATE memories SET is_latest = 0`
over all rows matching `hasExpired`, returning the number of rows updated
(`cursor.rowcount`) together with the new state. -/
def expire_memories (st : Store) (now : ℤ) : ℕ × Store :=
  let expired := st.memories.countP (hasExpired now)
  (expired,
    { st with memories := st.memories.map (fun m =>
        if hasExpired now m then { m with is_latest := false } else m) })

end GraphMemory

namespace MemoryConsolidator

/-- `PRUNE_MAX_SALIENCE` from `consolidate.py`. -/
def PRUNE_MAX_SALIENCE : ℚ := 4/10

/-- `PRUNE_MIN_AGE_DAYS` from `consolidate.py`, in days. -/
def PRUNE_MIN_AGE_DAYS : ℤ := 7

/-- WHERE clause of the prune-candidate query of `_prune_memories`:
salience below 0.4, created before the 7-day cutoff, access count zero or
NULL, and archive layer. -/
def pruneCandidate (now : ℤ) (m : MemRecord) : Bool :=
  decide (m.salience < PRUNE_MAX_SALIENCE) &&
  decide (m.created_at < now - PRUNE_MIN_AGE_DAYS * 86400) &&
  (m.access_count == some 0 || m.access_count == none) &&
  (m.layer == "archive")

/-- `MemoryConsolidator._prune_memories`: select the candidates; in dry-run
mode only report their number; otherwise delete their embeddings and then
the records themselves (by candidate id), all before the single `commit()`,
and report the number of candidates. -/
def prune_memories (now : ℤ) (dry_run : Bool) (st : Store) : ℕ × Store :=
  let candidates := st.memories.filter (pruneCandidate now)
  if dry_run then (candidates.length, st)
  else
    let ids := candidates.map (fun m => m.id)
    (candidates.length,
      { st with
        embeddings := st.embeddings.filter (fun p => decide (p.1 ∉ ids)),
        memories := st.memories.filter (fun m => decide (m.id ∉ ids)) })

end MemoryConsolidator

/-- Concrete two-record store used by the C5 witness: record 1 is an old
prune candidate, record 2 is only 100 seconds younger than the cutoff. -/
def pruneDemoStore : Store :=
  { memories :=
      [{ id := 1, content := "old", layer := "archive", memory_type := "fact",
         salience := 3/10, created_at := 0, updated_at := 0,
         accessed_at := none, access_count := some 0, metadata := none,
         is_latest := true, expires_at := none },
       { id := 2, content := "new", layer := "archive", memory_type := "fact",
         salience := 3/10, created_at := 604900, updated_at := 604900,
         accessed_at := none, access_count := some 0, metadata := none,
         is_latest := true, expires_at := none }],
    edges := [],
    embeddings := [(1, [1]), (2, [1])] }

namespace MemorySurfacer

/-- The `SurfacedMemory` dataclass of `surface.py`. -/
structure SurfacedMemory where
  id : ℕ
  content : String
  memory_type : String
  relevance : ℚ
  reason : String
  confidence : ℚ
  tags : List String
  may_contradict : Bool
deriving Repr, DecidableEq

/-- The content fingerprint used by `_detect_contradictions`:
`mem.content[:50].lower()`. -/
def fingerprint (m : SurfacedMemory) : String :=
  lowerStr (String.mk (m.content.data.take 50))

/-- Flagging a surfaced memory as a potential contradiction. -/
def flagged (m : SurfacedMemory) : SurfacedMemory :=
  { m with may_contradict := true }

/-- Flag the first element carrying the given fingerprint: the
`seen_content_keys[key]` dictionary entry is the first occurrence of the
key, mutated in place by the source. -/
def flagFirst (key : String) : List SurfacedMemory → List SurfacedMemory
  | [] => []
  | m :: rest =>
    if fingerprint m = key then flagged m :: rest
    else m :: flagFirst key rest

/-- One iteration of the `_detect_contradictions` loop: `acc` is the already
processed prefix (whose fingerprints are exactly the keys of
`seen_content_keys`); a repeated key flags both the current memory and the
stored first occurrence, a fresh key just records the memory. -/
def detectStep (acc : List SurfacedMemory) (m : SurfacedMemory) :
    List SurfacedMemory :=
  if decide (fingerprint m ∈ acc.map fingerprint) then
    flagFirst (fingerprint m) acc ++ [flagged m]
  else acc ++ [m]

/-- `MemorySurfacer._detect_contradictions`: group by fingerprint while
walking the list, flagging every member of a repeated-fingerprint group. -/
def detect_contradictions (memories : List SurfacedMemory) :
    List SurfacedMemory :=
  memories.foldl detectStep []

/-- Whether a fingerprint occurs at least twice in the given list. -/
def dupFlag (memories : List SurfacedMemory) (m : SurfacedMemory) : Bool :=
  decide (2 ≤ (memories.map fingerprint).count (fingerprint m))

/-- Declarative description of the pass: an element is flagged exactly when
its fingerprint occurs at least twice in the whole list. -/
def annotate (memories : List SurfacedMemory) : List SurfacedMemory :=
  memories.map (fun m => if dupFlag memories m = true then flagged m else m)

end MemorySurfacer

namespace GraphMemory

/-- One row returned by `GraphMemory._get_extensions`: the extending
record's fields joined with the edge confidence, ordered by descending
confidence. -/
structure ExtRow where
  id : ℕ
  content : String
  memory_type : String
  created_at : ℤ
  confidence : ℚ
deriving Repr, DecidableEq

end GraphMemory

namespace Memory

/-- The two external collaborators of `Memory.search` (spec §6): the
embedding model `embed(text) -> vector | unavailable` and the vector
index's cosine-distance function, plus the `SQLITE_VEC_AVAILABLE` flag.
All theorems quantify over them. -/
structure SearchCfg where
  embed : String → Option (List ℚ)
  vecAvailable : Bool
  dist : List ℚ → List ℚ → ℚ

/-- Python truthiness of the optional query embedding (`if query_embedding
and SQLITE_VEC_AVAILABLE`): present and non-empty. -/
def pyTruthy : Option (List ℚ) → Bool
  | some qv => !qv.isEmpty
  | none => false

/-- Lookup in the `memory_embeddings` table. -/
def lookupEmb (st : Store) (memory_id : ℕ) : Option (List ℚ) :=
  (st.embeddings.find? (fun p => p.1 == memory_id)).map (fun p => p.2)

/-- One result dictionary of `Memory.search`.  The keys `_supersedes`,
`_extensions` and `_extended_context` that `search_with_graph` may add are
optional fields defaulting to absent. -/
structure SearchResult where
  id : ℕ
  content : String
  mtype : String
  salience : ℚ
  created_at : ℤ
  relevance : ℚ
  metadata : Option String
  supersedes : Option ℕ := none
  extensions : Option (List GraphMemory.ExtRow) := none
  extended_context : Option String := none
deriving Repr, DecidableEq

/-- `Memory._record_access`: set `accessed_at` and increment
`access_count` (SQL `access_count + 1` keeps NULL at NULL). -/
def record_access (now : ℤ) (st : Store) (memory_id : ℕ) : Store :=
  { st with memories := st.memories.map (fun m =>
      if m.id = memory_id then
        { m with accessed_at := some now,
                 access_count := m.access_count.map (fun c => c + 1) }
      else m) }

/-- SQLite `content LIKE '%query%'`: substring containment with ASCII case
folding.  The `%`/`_` wildcard meaning of characters inside `query` itself
is not modelled; the query is treated literally. -/
def likeContains (content query : String) : Bool :=
  (lowerStr content).data.tails.any (fun t => (lowerStr query).data.isPrefixOf t)

/-- The `memories JOIN memory_embeddings` rows with the cosine distance of
each embedding to the query vector. -/
def withDistances (cfg : SearchCfg) (st : Store) (qv : List ℚ) :
    List (MemRecord × ℚ) :=
  st.memories.filterMap (fun m =>
    (lookupEmb st m.id).map (fun e => (m, cfg.dist e qv)))

/-- Rows of the vector branch of `Memory.search`: salience filter,
`ORDER BY distance ASC`, `LIMIT`. -/
def vecRows (cfg : SearchCfg) (st : Store) (qv : List ℚ) (limit : ℕ)
    (min_salience : ℚ) : List (MemRecord × ℚ) :=
  (((withDistances cfg st qv).filter (fun p =>
      decide (min_salience ≤ p.1.salience))).mergeSort
    (fun a b => decide (a.2 ≤ b.2))).take limit

/-- Rows of the keyword fallback branch: `LIKE` filter, salience filter,
`ORDER BY created_at DESC`, `LIMIT`. -/
def keywordRows (st : Store) (query : String) (limit : ℕ)
    (min_salience : ℚ) : List MemRecord :=
  ((st.memories.filter (fun m =>
      likeContains m.content query && decide (min_salience ≤ m.salience))).mergeSort
    (fun a b => decide (b.created_at ≤ a.created_at))).take limit

/-- Building one result dictionary from a row and its distance column:
`'relevance': 1 - row['distance'] if row['distance'] else 0.5` — note the
Python truthiness test, which sends a zero distance to the 0.5 fallback. -/
def mkResult (m : MemRecord) (distance : ℚ) : SearchResult :=
  { id := m.id, content := m.content, mtype := m.memory_type,
    salience := m.salience, created_at := m.created_at,
    relevance := if distance = 0 then 1/2 else 1 - distance,
    metadata := m.metadata }

/-- `Memory.search`: the vector branch when a non-empty query embedding is
obtainable and the vector index is available, the keyword `LIKE` fallback
otherwise; every returned row is passed through `_record_access`. -/
def search (cfg : SearchCfg) (st : Store) (query : String) (limit : ℕ)
    (min_salience : ℚ) (now : ℤ) : List SearchResult × Store :=
  let query_embedding := cfg.embed query
  if pyTruthy query_embedding = true ∧ cfg.vecAvailable = true then
    let rows := vecRows cfg st (query_embedding.getD []) limit min_salience
    (rows.map (fun p => mkResult p.1 p.2),
     rows.foldl (fun s p => record_access now s p.1.id) st)
  else
    let rows := keywordRows st query limit min_salience
    (rows.map (fun m => mkResult m (1/2)),
     rows.foldl (fun s m => record_access now s m.id) st)

end Memory

namespace GraphMemory

/-- `SELECT ... FROM memories WHERE id = ?` returning the first row. -/
def findMem (st : Store) (memory_id : ℕ) : Option MemRecord :=
  st.memories.find? (fun m => m.id == memory_id)

/-- `GraphMemory._get_extensions`: records extending the given memory,
joined with the edge confidence, `ORDER BY e.confidence DESC`. -/
def get_extensions (st : Store) (memory_id : ℕ) : List ExtRow :=
  ((st.edges.filter (fun e =>
      e.target_id == memory_id && (e.relation == "extends"))).filterMap
    (fun e => (findMem st e.source_id).map (fun m =>
      ({ id := m.id, content := m.content, memory_type := m.memory_type,
         created_at := m.created_at, confidence := e.confidence } : ExtRow)))).mergeSort
    (fun a b => decide (b.confidence ≤ a.confidence))

/-- The `SELECT source_id FROM memory_edges WHERE target_id = ? AND
relation = 'updates' ORDER BY created_at DESC LIMIT 1` query of
`search_with_graph`: the most recent inbound `updates` edge. -/
def latestUpdater (st : Store) (memory_id : ℕ) : Option Edge :=
  ((st.edges.filter (fun e =>
      e.target_id == memory_id && (e.relation == "updates"))).mergeSort
    (fun a b => decide (b.created_at ≤ a.created_at))).head?

/-- The replacement dictionary built from the superseding record: all
fields from the latest record, the relevance carried over from the
original result, and `_supersedes` recording the replaced id. -/
def supersedingResult (latest : MemRecord) (r : Memory.SearchResult) :
    Memory.SearchResult :=
  { id := latest.id, content := latest.content, mtype := latest.memory_type,
    salience := latest.salience, created_at := latest.created_at,
    relevance := r.relevance, metadata := latest.metadata,
    supersedes := some r.id }

/-- The `follow_extends` enrichment: attach the extension rows of the
ORIGINAL candidate id (the source reads `mem_id`, bound before any
replacement) and a "; "-joined preview of the first three. -/
def attachExtensions (st : Store) (mem_id : ℕ) (follow_extends : Bool)
    (r : Memory.SearchResult) : Memory.SearchResult :=
  if follow_extends = true then
    let exts := get_extensions st mem_id
    if exts.isEmpty then r
    else { r with extensions := some exts,
                  extended_context := some (String.intercalate "; "
                    ((exts.take 3).map (fun e => String.mk (e.content.data.take 100)))) }
  else r

/-- The `prefer_latest` resolution inside one iteration of the
`search_with_graph` loop; `seen` already contains the candidate's own id.
`none` means the Python `continue` that drops a superseded candidate with
no inbound `updates` edge. -/
def resolveLatest (st : Store) (prefer_latest : Bool)
    (seen : List ℕ) (result : Memory.SearchResult) :
    Option (Memory.SearchResult × List ℕ) :=
  if prefer_latest = true then
    match findMem st result.id with
    | some row =>
      if row.is_latest = false then
        match latestUpdater st result.id with
        | some e =>
          match findMem st e.source_id with
          | some latest =>
            if latest.id ∉ seen then
              some (supersedingResult latest result, latest.id :: seen)
            else some (result, seen)
          | none => some (result, seen)
        | none => none
      else some (result, seen)
    | none => some (result, seen)
  else some (result, seen)

/-- One iteration of the `search_with_graph` loop, continued: append the
resolved result (with extension enrichment) or drop the candidate. -/
def graphStep (st : Store) (follow_extends prefer_latest : Bool)
    (acc : List Memory.SearchResult × List ℕ) (result : Memory.SearchResult) :
    List Memory.SearchResult × List ℕ :=
  if result.id ∈ acc.2 then acc
  else
    match resolveLatest st prefer_latest (result.id :: acc.2) result with
    | none => (acc.1, result.id :: acc.2)
    | some (result2, seen2) =>
      (acc.1 ++ [attachExtensions st result.id follow_extends result2], seen2)

/-- `GraphMemory.search_with_graph`. -/
def search_with_graph (st : Store) (base_results : List Memory.SearchResult)
    (follow_extends : Bool := true) (prefer_latest : Bool := true) :
    List Memory.SearchResult :=
  if base_results.isEmpty then base_results
  else (base_results.foldl (graphStep st follow_extends prefer_latest) ([], [])).1

end GraphMemory

/-- Concrete record for C3: the superseding record (id 1, latest). -/
def m1c : MemRecord :=
  { id := 1, content := "new fact", layer := "archive", memory_type := "fact",
    salience := 1/2, created_at := 1, updated_at := 1,
    accessed_at := none, access_count := some 0, metadata := none,
    is_latest := true, expires_at := none }

/-- Concrete record for C3: the superseded record (id 2, not latest). -/
def m2c : MemRecord :=
  { id := 2, content := "old fact", layer := "archive", memory_type := "fact",
    salience := 1/2, created_at := 0, updated_at := 0,
    accessed_at := none, access_count := some 0, metadata := none,
    is_latest := false, expires_at := none }

/-- Concrete `updates` edge for C3: record 1 updates record 2. -/
def e12 : Edge :=
  { source_id := 1, target_id := 2, relation := "updates",
    confidence := 1/2, created_at := 2, metadata := none }

/-- Concrete store for C3. -/
def st3 : Store := { memories := [m1c, m2c], edges := [e12], embeddings := [] }

/-- Concrete base result for record 1. -/
def r1c : Memory.SearchResult :=
  { id := 1, content := "new fact", mtype := "fact", salience := 1/2,
    created_at := 1, relevance := 9/10, metadata := none }

/-- Concrete base result for record 2. -/
def r2c : Memory.SearchResult :=
  { id := 2, content := "old fact", mtype := "fact", salience := 1/2,
    created_at := 0, relevance := 8/10, metadata := none }

namespace MemoryConsolidator

/-- `MERGE_SIMILARITY_THRESHOLD` from `consolidate.py`. -/
def MERGE_SIMILARITY_THRESHOLD : ℚ := 85/100

/-- One row of the `_merge_similar` snapshot query (`SELECT m.id,
m.content, m.memory_type, m.salience, m.created_at ...`). -/
structure MergeRow where
  id : ℕ
  content : String
  memory_type : String
  salience : ℚ
  created_at : ℤ
deriving Repr, DecidableEq

/-- The snapshot query of `_merge_similar`: archive-layer memories that
have an embedding, newest first. -/
def mergeRows (st : Store) : List MergeRow :=
  ((st.memories.filter (fun m =>
      (m.layer == "archive") && (Memory.lookupEmb st m.id).isSome)).map
    (fun m => ({ id := m.id, content := m.content, memory_type := m.memory_type,
                 salience := m.salience, created_at := m.created_at } : MergeRow))).mergeSort
    (fun a b => decide (b.created_at ≤ a.created_at))

/-- The `UPDATE` of the kept record in `_merge_similar` (SQL
`access_count + 1` keeps NULL at NULL). -/
def touchKeep (now : ℤ) (st : Store) (keep_id : ℕ) : Store :=
  { st with memories := st.memories.map (fun m =>
      if m.id = keep_id then
        { m with access_count := m.access_count.map (fun c => c + 1),
                 updated_at := now }
      else m) }

/-- The two `DELETE`s of the merged-away record: its embedding, then the
record itself. -/
def deleteMem (st : Store) (remove_id : ℕ) : Store :=
  { st with
    embeddings := st.embeddings.filter (fun p => !(p.1 == remove_id)),
    memories := st.memories.filter (fun m => !(m.id == remove_id)) }

/-- Tie-break of `_merge_similar`: the higher-salience record survives,
`mem1` (the earlier-compared row) on ties; returns (keep, remove) ids. -/
def keepRemove (mem1 mem2 : MergeRow) : ℕ × ℕ :=
  if mem1.salience ≥ mem2.salience then (mem1.id, mem2.id) else (mem2.id, mem1.id)

/-- The inner `for mem2 in memories[i+1:]` loop of `_merge_similar`.  The
state is (store, merged_ids, merged_count).  Each un-merged `mem2` triggers
`self.mem.search(mem1.content, limit=5)` against the CURRENT store — whose
`_record_access` side effects persist even in dry-run mode — and a merge
fires on the first result equal to `mem2` with relevance above 0.85.
`Memory.search` is pure, so mentioning it twice (results and post-store)
denotes the single call the source makes. -/
def mergeInner (cfg : Memory.SearchCfg) (now : ℤ) (dry_run : Bool)
    (mem1 : MergeRow) : List MergeRow → Store × List ℕ × ℕ → Store × List ℕ × ℕ
  | [], s => s
  | mem2 :: rest, (st, merged_ids, cnt) =>
    if mem2.id ∈ merged_ids then
      mergeInner cfg now dry_run mem1 rest (st, merged_ids, cnt)
    else
      match (Memory.search cfg st mem1.content 5 0 now).1.find? (fun r =>
          (r.id == mem2.id) && decide (r.relevance > MERGE_SIMILARITY_THRESHOLD)) with
      | some _ =>
        mergeInner cfg now dry_run mem1 rest
          ((if dry_run = true then (Memory.search cfg st mem1.content 5 0 now).2
            else deleteMem
              (touchKeep now (Memory.search cfg st mem1.content 5 0 now).2
                (keepRemove mem1 mem2).1)
              (keepRemove mem1 mem2).2),
           merged_ids ++ [(keepRemove mem1 mem2).2], cnt + 1)
      | none =>
        mergeInner cfg now dry_run mem1 rest
          ((Memory.search cfg st mem1.content 5 0 now).2, merged_ids, cnt)

/-- The outer `for i, mem1 in enumerate(memories)` loop of
`_merge_similar`: rows already merged away are skipped, every other row is
compared against the strictly later rows. -/
def mergeOuter (cfg : Memory.SearchCfg) (now : ℤ) (dry_run : Bool) :
    List MergeRow → Store × List ℕ × ℕ → Store × List ℕ × ℕ
  | [], s => s
  | mem1 :: rest, (st, merged_ids, cnt) =>
    if mem1.id ∈ merged_ids then
      mergeOuter cfg now dry_run rest (st, merged_ids, cnt)
    else
      mergeOuter cfg now dry_run rest
        (mergeInner cfg now dry_run mem1 rest (st, merged_ids, cnt))

/-- `MemoryConsolidator._merge_similar`. -/
def merge_similar (cfg : Memory.SearchCfg) (now : ℤ) (dry_run : Bool)
    (st : Store) : ℕ × Store :=
  if (mergeRows st).length < 2 then (0, st)
  else ((mergeOuter cfg now dry_run (mergeRows st) (st, [], 0)).2.2,
        (mergeOuter cfg now dry_run (mergeRows st) (st, [], 0)).1)

/-- The `ConsolidationResult` dataclass (the wall-clock `duration_ms`
field is not modelled). -/
structure ConsolidationResult where
  memories_before : ℕ
  memories_after : ℕ
  merged : ℕ
  pruned : ℕ
  compressed : ℕ
deriving Repr, DecidableEq

/-- The `memories` count of `Memory.stats`, as read by `consolidate`. -/
def statsMemories (st : Store) : ℕ := st.memories.length

/-- The pruning phase of `consolidate` (skipped when `prune` is false). -/
def pruneStep (now : ℤ) (prune dry_run : Bool) (st : Store) : ℕ × Store :=
  if prune = true then prune_memories now dry_run st else (0, st)

/-- The merging phase of `consolidate` (skipped when `merge` is false). -/
def mergeStep (cfg : Memory.SearchCfg) (now : ℤ) (merge dry_run : Bool)
    (st : Store) : ℕ × Store :=
  if merge = true then merge_similar cfg now dry_run st else (0, st)

/-- `MemoryConsolidator.consolidate`: count, prune, merge, recount. -/
def consolidate (cfg : Memory.SearchCfg) (now : ℤ)
    (prune merge dry_run : Bool) (st : Store) : ConsolidationResult × Store :=
  ({ memories_before := statsMemories st,
     memories_after := statsMemories
       (mergeStep cfg now merge dry_run (pruneStep now prune dry_run st).2).2,
     merged := (mergeStep cfg now merge dry_run (pruneStep now prune dry_run st).2).1,
     pruned := (pruneStep now prune dry_run st).1,
     compressed := 0 },
   (mergeStep cfg now merge dry_run (pruneStep now prune dry_run st).2).2)

end MemoryConsolidator

/-- A record changed in at most its access metadata: all fields except
`accessed_at` and `access_count` agree. -/
def sameModuloAccess (m m' : MemRecord) : Prop :=
  m'.id = m.id ∧ m'.content = m.content ∧ m'.layer = m.layer ∧
  m'.memory_type = m.memory_type ∧ m'.salience = m.salience ∧
  m'.created_at = m.created_at ∧ m'.updated_at = m.updated_at ∧
  m'.metadata = m.metadata ∧ m'.is_latest = m.is_latest ∧
  m'.expires_at = m.expires_at

/-- A store changed in at most the access metadata of its records: record
list pointwise `sameModuloAccess`, edges and embeddings untouched. -/
def accessOnly (st st' : Store) : Prop :=
  List.Forall₂ sameModuloAccess st.memories st'.memories ∧
  st'.edges = st.edges ∧ st'.embeddings = st.embeddings

/-- Collaborators for the C6 counterexample: embedding model unavailable,
so the merge phase's searches take the keyword branch. -/
def cfg6 : Memory.SearchCfg :=
  { embed := fun _ => none, vecAvailable := false, dist := fun _ _ => 0 }

/-- First record of the C6 store. -/
def m61 : MemRecord :=
  { id := 1, content := "a", layer := "archive", memory_type := "fact",
    salience := 1/2, created_at := 10, updated_at := 10,
    accessed_at := none, access_count := some 0, metadata := none,
    is_latest := true, expires_at := none }

/-- Second record of the C6 store. -/
def m62 : MemRecord :=
  { id := 2, content := "b", layer := "archive", memory_type := "fact",
    salience := 1/2, created_at := 0, updated_at := 0,
    accessed_at := none, access_count := some 0, metadata := none,
    is_latest := true, expires_at := none }

/-- Concrete store for the C6 counterexample: two archive records with
embeddings. -/
def st6 : Store :=
  { memories := [m61, m62], edges := [], embeddings := [(1, [1]), (2, [1])] }

/-- Merge-snapshot row of record 1. -/
def row61 : MemoryConsolidator.MergeRow :=
  { id := 1, content := "a", memory_type := "fact", salience := 1/2, created_at := 10 }

/-- Merge-snapshot row of record 2. -/
def row62 : MemoryConsolidator.MergeRow :=
  { id := 2, content := "b", memory_type := "fact", salience := 1/2, created_at := 0 }

/-- C7: the claim states that for every content string, declared type and
caller-supplied base, the estimated salience lies within [0,1].  The source
only applies `min(1.0, ·)` — there is no lower clamp, contradicting the
function's own docstring "Returns: float between 0.0 and 1.0".  At the
failing input `content = ""`, `memory_type = None`, `base_salience = -1`
the function returns `-1`, which is outside [0,1]. -/
theorem estimate_salience_not_clamped_below :
    LayerClassifier.estimate_salience "" none (-1) = -1 ∧
    ¬ (0 ≤ LayerClassifier.estimate_salience "" none (-1)) := by
  have h1 : LayerClassifier.estimate_salience "" none (-1) = -1 := by
    simp only [LayerClassifier.estimate_salience, LayerClassifier.HIGH_SALIENCE_KEYWORDS]
    norm_num
    decide
  refine ⟨h1, ?_⟩
  rw [h1]
  norm_num

/-- C2: after `add_edge st s t rel conf meta now`, (a) exactly one edge with
the (source, target, relation) key exists — re-adding overwrites rather than
duplicates — and (b) when the relation is `"updates"`, every record with the
target's id is marked not-latest.  The edge write and the flag flip are two
effects of the same single transition, so no state with the edge present but
the target still latest exists in the model. -/
theorem add_edge_upserts_and_flips_latest (st : Store) (s t : ℕ)
    (rel : String) (conf : ℚ) (meta : Option String) (now : ℤ) :
    ((GraphMemory.add_edge st s t rel conf meta now).edges.countP (fun e =>
        decide (e.source_id = s ∧ e.target_id = t ∧ e.relation = rel)) = 1) ∧
    (rel = "updates" →
      ((GraphMemory.add_edge st s t rel conf meta now).memories.all (fun m =>
        !(m.id == t) || !m.is_latest)) = true) := by
  constructor
  · show ((st.edges.filter _) ++ [_]).countP _ = 1
    rw [List.countP_append]
    have h0 : (st.edges.filter (fun e =>
        !(decide (e.source_id = s ∧ e.target_id = t ∧ e.relation = rel)))).countP
        (fun e => decide (e.source_id = s ∧ e.target_id = t ∧ e.relation = rel)) = 0 := by
      rw [List.countP_eq_zero]
      intro e he
      have h1 := List.of_mem_filter he
      simp only [Bool.not_eq_true', decide_eq_false_iff_not] at h1
      simp only [decide_eq_true_eq]
      exact h1
    rw [h0]
    simp
  · intro hrel
    subst hrel
    rw [List.all_eq_true]
    intro m hm
    simp only [GraphMemory.add_edge] at hm
    rw [if_pos trivial] at hm
    simp only [List.mem_map] at hm
    obtain ⟨m0, -, hm0⟩ := hm
    by_cases h : m0.id = t
    · rw [if_pos h] at hm0
      rw [← hm0]
      simp
    · rw [if_neg h] at hm0
      rw [← hm0]
      simp only [Bool.or_eq_true, Bool.not_eq_true', beq_eq_false_iff_ne, ne_eq]
      left
      exact h

/-- Witness for C2 at a concrete store: one pre-existing duplicate edge for
the (1, 2, "updates") key and a latest target record with id 2. -/
theorem add_edge_upserts_and_flips_latest_witness :
    ((GraphMemory.add_edge
        { memories := [{ id := 2, content := "b", layer := "archive",
                         memory_type := "fact", salience := 1/2,
                         created_at := 0, updated_at := 0,
                         accessed_at := none, access_count := some 0,
                         metadata := none, is_latest := true,
                         expires_at := none }],
          edges := [{ source_id := 1, target_id := 2, relation := "updates",
                      confidence := 1/2, created_at := 0, metadata := none }],
          embeddings := [] } 1 2 "updates" (3/4) none 5).edges.countP (fun e =>
        decide (e.source_id = 1 ∧ e.target_id = 2 ∧ e.relation = "updates")) = 1) ∧
    (((GraphMemory.add_edge
        { memories := [{ id := 2, content := "b", layer := "archive",
                         memory_type := "fact", salience := 1/2,
                         created_at := 0, updated_at := 0,
                         accessed_at := none, access_count := some 0,
                         metadata := none, is_latest := true,
                         expires_at := none }],
          edges := [{ source_id := 1, target_id := 2, relation := "updates",
                      confidence := 1/2, created_at := 0, metadata := none }],
          embeddings := [] } 1 2 "updates" (3/4) none 5).memories.all (fun m =>
        !(m.id == 2) || !m.is_latest)) = true) := by
  refine ⟨(add_edge_upserts_and_flips_latest _ 1 2 "updates" (3/4) none 5).1, ?_⟩
  exact (add_edge_upserts_and_flips_latest _ 1 2 "updates" (3/4) none 5).2 rfl

set_option maxHeartbeats 1000000 in
/-- C1: the relationship classifier implements exactly the claimed priority
order — the if-chain of `_classify_relationship` (with its nested blocks
and early returns) is extensionally equal to the flat first-match-wins
seven-rule list of the claim, for every pair of texts, every similarity
value and every value of the abstract regex signals. -/
theorem classify_relationship_priority_order (o : GraphMemory.RegexOracles)
    (new existing : String) (similarity : ℚ) :
    GraphMemory.classify_relationship o new existing similarity =
      GraphMemory.classify_relationship_claim o new existing similarity := by
  have h1 : (85:ℚ)/100 ≤ similarity → (72:ℚ)/100 ≤ similarity :=
    fun h => le_trans (by norm_num) h
  unfold GraphMemory.classify_relationship GraphMemory.classify_relationship_claim
  simp only [GraphMemory.SIMILARITY_UPDATE_THRESHOLD,
    GraphMemory.SIMILARITY_EXTEND_THRESHOLD, GraphMemory.SIMILARITY_DERIVE_THRESHOLD]
  generalize o.contradiction_signals (lowerStr new) (lowerStr existing) = c
  generalize o.shares_subject (lowerStr new) (lowerStr existing) = sb
  generalize o.extension_signals (lowerStr new) (lowerStr existing) = eb
  generalize GraphMemory.has_new_information (lowerStr new) (lowerStr existing) = nb
  generalize GraphMemory.has_inferrable_connection (lowerStr new) (lowerStr existing) = ib
  by_cases hc : c = true <;> simp only [hc] <;> split_ifs <;> first | rfl | tauto

/-- C10: relationship detection never proposes a self-edge — every detected
relationship's target differs from the new memory's id, because a candidate
whose id equals the new memory's id is skipped before classification. -/
theorem detect_relationships_no_self_edge (o : GraphMemory.RegexOracles)
    (new_memory_id : ℕ) (new_content : String) (similar_memories : List GraphMemory.Candidate) :
    (GraphMemory.detect_relationships o new_memory_id new_content
        similar_memories).all (fun r => r.target_id != new_memory_id) = true := by
  unfold GraphMemory.detect_relationships
  suffices h : ∀ acc : List GraphMemory.DetectedRel,
      acc.all (fun r => r.target_id != new_memory_id) = true →
      (similar_memories.foldl _ acc).all (fun r => r.target_id != new_memory_id) = true from
    h [] rfl
  induction similar_memories with
  | nil => intro acc hacc; exact hacc
  | cons hd tl ih =>
    intro acc hacc
    simp only [List.foldl_cons]
    apply ih
    by_cases hid : hd.id = new_memory_id
    · rw [if_pos hid]; exact hacc
    · rw [if_neg hid]
      cases GraphMemory.classify_relationship o new_content hd.content hd.relevance with
      | none => exact hacc
      | some rel =>
        simp only [List.all_append, hacc, List.all_cons, List.all_nil, Bool.and_true,
          Bool.true_and]
        simpa using hid

/-- Helper: a sweep over a state in which no record matches the expiry
predicate is the identity and reports zero flips. -/
theorem expire_memories_of_none_expired (st : Store) (now : ℤ)
    (h : ∀ m ∈ st.memories, GraphMemory.hasExpired now m = false) :
    GraphMemory.expire_memories st now = (0, st) := by
  unfold GraphMemory.expire_memories
  have hcount : st.memories.countP (GraphMemory.hasExpired now) = 0 := by
    rw [List.countP_eq_zero]
    intro m hm
    rw [h m hm]
    simp
  have hmap : st.memories.map (fun m =>
      if GraphMemory.hasExpired now m then { m with is_latest := false } else m) =
      st.memories := by
    conv_rhs => rw [← List.map_id st.memories]
    apply List.map_congr_left
    intro m hm
    rw [if_neg (by rw [h m hm]; simp)]
    rfl
  rw [hcount, hmap]

/-- Helper: after one sweep, no record matches the expiry predicate any
more. -/
theorem expire_memories_clears_predicate (st : Store) (now : ℤ) :
    ∀ m ∈ (GraphMemory.expire_memories st now).2.memories,
      GraphMemory.hasExpired now m = false := by
  intro m hm
  simp only [GraphMemory.expire_memories, List.mem_map] at hm
  obtain ⟨m0, hm0, rfl⟩ := hm
  by_cases h : GraphMemory.hasExpired now m0 = true
  · rw [if_pos h]
    simp [GraphMemory.hasExpired]
  · rw [if_neg h]
    simpa using h

/-- C8: the expiry sweep flips `is_latest` to false for exactly those
records that have a passed non-null `expires_at` and are still latest
(afterwards a record is latest iff it was latest and not time-expired), it
changes no other field of any record, and it is idempotent: an immediately
repeated sweep returns the state unchanged and reports zero flipped
records. -/
theorem expire_memories_exact_and_idempotent (st : Store) (now : ℤ) :
    List.Forall₂ (fun m m' =>
        m'.is_latest = (m.is_latest && !(GraphMemory.timeExpired now m)) ∧
        m'.id = m.id ∧ m'.content = m.content ∧ m'.layer = m.layer ∧
        m'.memory_type = m.memory_type ∧ m'.salience = m.salience ∧
        m'.created_at = m.created_at ∧ m'.updated_at = m.updated_at ∧
        m'.accessed_at = m.accessed_at ∧ m'.access_count = m.access_count ∧
        m'.metadata = m.metadata ∧ m'.expires_at = m.expires_at)
      st.memories (GraphMemory.expire_memories st now).2.memories ∧
    GraphMemory.expire_memories (GraphMemory.expire_memories st now).2 now =
      (0, (GraphMemory.expire_memories st now).2) := by
  constructor
  · show List.Forall₂ _ st.memories (st.memories.map _)
    rw [List.forall₂_map_right_iff]
    rw [List.forall₂_same]
    intro m hm
    by_cases h : GraphMemory.hasExpired now m = true
    · rw [if_pos h]
      have h2 := h
      simp only [GraphMemory.hasExpired, Bool.and_eq_true] at h2
      refine ⟨?_, rfl, rfl, rfl, rfl, rfl, rfl, rfl, rfl, rfl, rfl, rfl⟩
      rw [h2.1, h2.2]
      rfl
    · rw [if_neg h]
      refine ⟨?_, rfl, rfl, rfl, rfl, rfl, rfl, rfl, rfl, rfl, rfl, rfl⟩
      have h2 : ¬(GraphMemory.timeExpired now m = true ∧ m.is_latest = true) := by
        simpa [GraphMemory.hasExpired, Bool.and_eq_true] using h
      cases hl : m.is_latest
      · simp
      · cases ht : GraphMemory.timeExpired now m
        · simp
        · exact absurd ⟨ht, hl⟩ h2
  · exact expire_memories_of_none_expired _ now (expire_memories_clears_predicate st now)

/-- C5: given distinct record ids, a real (non-dry) pruning pass keeps
exactly the records that are not prune candidates (archive layer, salience
below 0.4, older than 7 days, access count zero or unset — candidates and
nothing else are deleted), removes exactly the embeddings of the deleted
records, and in particular keeps every record created at or after
`now - 7 * 86400`, regardless of its salience or access count. -/
theorem prune_memories_deletes_exactly_candidates (st : Store) (now : ℤ)
    (h : (st.memories.map (fun m => m.id)).Nodup) :
    (MemoryConsolidator.prune_memories now false st).2.memories =
      st.memories.filter (fun m => !(MemoryConsolidator.pruneCandidate now m)) ∧
    (MemoryConsolidator.prune_memories now false st).2.embeddings =
      st.embeddings.filter (fun p =>
        !(st.memories.any (fun m =>
            m.id == p.1 && MemoryConsolidator.pruneCandidate now m))) ∧
    ((st.memories.filter (fun m =>
        decide (now - 7 * 86400 ≤ m.created_at))).all (fun m =>
        (MemoryConsolidator.prune_memories now false st).2.memories.contains m)) = true := by
  have hid : ∀ m ∈ st.memories,
      (m.id ∈ (st.memories.filter (MemoryConsolidator.pruneCandidate now)).map
        (fun m => m.id)) ↔ MemoryConsolidator.pruneCandidate now m = true := by
    intro m hm
    constructor
    · intro hmem
      simp only [List.mem_map, List.mem_filter] at hmem
      obtain ⟨c, ⟨hcmem, hcand⟩, hcid⟩ := hmem
      have := List.inj_on_of_nodup_map h hcmem hm hcid
      rw [← this]
      exact hcand
    · intro hcand
      simp only [List.mem_map, List.mem_filter]
      exact ⟨m, ⟨hm, hcand⟩, rfl⟩
  have hmem_eq : (MemoryConsolidator.prune_memories now false st).2.memories =
      st.memories.filter (fun m => !(MemoryConsolidator.pruneCandidate now m)) := by
    show st.memories.filter _ = _
    apply List.filter_congr
    intro m hm
    by_cases hc : MemoryConsolidator.pruneCandidate now m = true
    · rw [hc]
      simp only [Bool.not_true, decide_eq_false_iff_not, not_not]
      exact (hid m hm).mpr hc
    · rw [Bool.not_eq_true] at hc
      rw [hc]
      simp only [Bool.not_false]
      rw [decide_eq_true_eq]
      intro hin
      have := (hid m hm).mp hin
      rw [hc] at this
      exact Bool.false_ne_true this
  refine ⟨hmem_eq, ?_, ?_⟩
  · show st.embeddings.filter _ = _
    apply List.filter_congr
    intro p hp
    have hiff : (p.1 ∉ (st.memories.filter (MemoryConsolidator.pruneCandidate now)).map
        (fun m => m.id)) ↔
        ¬(st.memories.any (fun m =>
            m.id == p.1 && MemoryConsolidator.pruneCandidate now m) = true) := by
      rw [not_iff_not]
      simp only [List.mem_map, List.mem_filter, List.any_eq_true, Bool.and_eq_true,
        beq_iff_eq]
      constructor
      · rintro ⟨c, ⟨hcmem, hcand⟩, hcid⟩
        exact ⟨c, hcmem, hcid, hcand⟩
      · rintro ⟨c, hcmem, hcid, hcand⟩
        exact ⟨c, ⟨hcmem, hcand⟩, hcid⟩
    by_cases hin : (st.memories.any (fun m =>
        m.id == p.1 && MemoryConsolidator.pruneCandidate now m)) = true
    · rw [hin]
      simp only [Bool.not_true]
      rw [decide_eq_false_iff_not, not_not]
      by_contra hnot
      exact (hiff.mp hnot) hin
    · rw [Bool.not_eq_true] at hin
      rw [hin]
      simp only [Bool.not_false]
      rw [decide_eq_true_eq]
      apply hiff.mpr
      rw [hin]
      exact Bool.false_ne_true
  · rw [List.all_eq_true]
    intro m hm
    rw [List.mem_filter] at hm
    obtain ⟨hmem, hyoung⟩ := hm
    rw [decide_eq_true_eq] at hyoung
    have hnc : MemoryConsolidator.pruneCandidate now m = false := by
      unfold MemoryConsolidator.pruneCandidate
      have : ¬(m.created_at < now - MemoryConsolidator.PRUNE_MIN_AGE_DAYS * 86400) := by
        unfold MemoryConsolidator.PRUNE_MIN_AGE_DAYS
        omega
      simp [this]
    rw [hmem_eq]
    have hin : m ∈ st.memories.filter
        (fun m => !(MemoryConsolidator.pruneCandidate now m)) := by
      rw [List.mem_filter]
      exact ⟨hmem, by rw [hnc]; rfl⟩
    exact List.elem_eq_true_of_mem hin

/-- Witness for C5 at `pruneDemoStore` with the pass run at time 605000. -/
theorem prune_memories_deletes_exactly_candidates_witness :
    ((pruneDemoStore.memories.map (fun m => m.id)).Nodup) ∧
    (MemoryConsolidator.prune_memories 605000 false pruneDemoStore).2.memories =
      pruneDemoStore.memories.filter
        (fun m => !(MemoryConsolidator.pruneCandidate 605000 m)) :=
  ⟨by decide,
   (prune_memories_deletes_exactly_candidates pruneDemoStore 605000 (by decide)).1⟩

/-- Helper: flagging does not change the fingerprint. -/
theorem fingerprint_flagged (m : MemorySurfacer.SurfacedMemory) :
    MemorySurfacer.fingerprint (MemorySurfacer.flagged m) =
      MemorySurfacer.fingerprint m := rfl

/-- Helper: a conditional flagging does not change the fingerprint. -/
theorem fingerprint_ite (b : Bool) (m : MemorySurfacer.SurfacedMemory) :
    MemorySurfacer.fingerprint
        (if b = true then MemorySurfacer.flagged m else m) =
      MemorySurfacer.fingerprint m := by
  cases b <;> rfl

/-- Helper: unfolding `flagFirst` when the head matches. -/
theorem flagFirst_cons_pos (k : String) (m : MemorySurfacer.SurfacedMemory)
    (l : List MemorySurfacer.SurfacedMemory)
    (h : MemorySurfacer.fingerprint m = k) :
    MemorySurfacer.flagFirst k (m :: l) = MemorySurfacer.flagged m :: l := by
  unfold MemorySurfacer.flagFirst
  rw [if_pos h]

/-- Helper: unfolding `flagFirst` when the head does not match. -/
theorem flagFirst_cons_neg (k : String) (m : MemorySurfacer.SurfacedMemory)
    (l : List MemorySurfacer.SurfacedMemory)
    (h : ¬ MemorySurfacer.fingerprint m = k) :
    MemorySurfacer.flagFirst k (m :: l) = m :: MemorySurfacer.flagFirst k l := by
  rw [MemorySurfacer.flagFirst, if_neg h]

/-- Helper: flagging an already conditionally flagged memory. -/
theorem flagged_ite (b : Bool) (m : MemorySurfacer.SurfacedMemory) :
    MemorySurfacer.flagged (if b = true then MemorySurfacer.flagged m else m) =
      MemorySurfacer.flagged m := by
  cases b <;> rfl

/-- Helper: `flagFirst` against a mapped conditional flagging.  `b1` is the
flag condition before an extra occurrence of fingerprint `k` arrives, `b2`
the one after: they agree away from `k`, `b2` always flags at `k`, and if
`k` already occurs at least twice then `b1` already flags at `k`. -/
theorem flagFirst_map (k : String) (q : List MemorySurfacer.SurfacedMemory)
    (b1 b2 : MemorySurfacer.SurfacedMemory → Bool)
    (H1 : ∀ x ∈ q, MemorySurfacer.fingerprint x ≠ k → b2 x = b1 x)
    (H2 : ∀ x ∈ q, MemorySurfacer.fingerprint x = k → b2 x = true)
    (H3 : 2 ≤ (q.map MemorySurfacer.fingerprint).count k →
      ∀ x ∈ q, MemorySurfacer.fingerprint x = k → b1 x = true) :
    q.map (fun x => if b2 x = true then MemorySurfacer.flagged x else x) =
      MemorySurfacer.flagFirst k
        (q.map (fun x => if b1 x = true then MemorySurfacer.flagged x else x)) := by
  induction q with
  | nil => rfl
  | cons x rest ih =>
    simp only [List.map_cons]
    by_cases hfx : MemorySurfacer.fingerprint x = k
    · rw [flagFirst_cons_pos k _ _ (by rw [fingerprint_ite]; exact hfx)]
      have hx2 : b2 x = true := H2 x (List.mem_cons_self _ _) hfx
      rw [hx2, if_pos rfl, flagged_ite]
      congr 1
      apply List.map_congr_left
      intro y hy
      by_cases hfy : MemorySurfacer.fingerprint y = k
      · have hcount : 2 ≤ ((x :: rest).map MemorySurfacer.fingerprint).count k := by
          have hpos : 0 < (rest.map MemorySurfacer.fingerprint).count k := by
            rw [List.count_pos_iff]
            rw [← hfy]
            exact List.mem_map_of_mem MemorySurfacer.fingerprint hy
          have hcc : ((x :: rest).map MemorySurfacer.fingerprint).count k
              = (rest.map MemorySurfacer.fingerprint).count k + 1 := by
            rw [List.map_cons, hfx, List.count_cons_self]
          omega
        have hy1 : b1 y = true := H3 hcount y (List.mem_cons_of_mem _ hy) hfy
        have hy2 : b2 y = true := H2 y (List.mem_cons_of_mem _ hy) hfy
        rw [hy1, hy2]
      · rw [H1 y (List.mem_cons_of_mem _ hy) hfy]
    · rw [flagFirst_cons_neg k _ _ (by rw [fingerprint_ite]; exact hfx)]
      rw [H1 x (List.mem_cons_self _ _) hfx]
      congr 1
      apply ih
      · intro y hy hfy
        exact H1 y (List.mem_cons_of_mem _ hy) hfy
      · intro y hy hfy
        exact H2 y (List.mem_cons_of_mem _ hy) hfy
      · intro hcount y hy hfy
        apply H3 ?_ y (List.mem_cons_of_mem _ hy) hfy
        simp only [List.map_cons, List.count_cons]
        omega

/-- Helper: annotation does not change the fingerprint sequence. -/
theorem annotate_map_fingerprint (p : List MemorySurfacer.SurfacedMemory) :
    (MemorySurfacer.annotate p).map MemorySurfacer.fingerprint =
      p.map MemorySurfacer.fingerprint := by
  unfold MemorySurfacer.annotate
  rw [List.map_map]
  apply List.map_congr_left
  intro m hm
  exact fingerprint_ite _ m

/-- Helper: one loop iteration turns the annotation of the processed prefix
into the annotation of the prefix extended by the current memory. -/
theorem detectStep_annotate (p : List MemorySurfacer.SurfacedMemory)
    (m : MemorySurfacer.SurfacedMemory) :
    MemorySurfacer.detectStep (MemorySurfacer.annotate p) m =
      MemorySurfacer.annotate (p ++ [m]) := by
  unfold MemorySurfacer.detectStep
  rw [annotate_map_fingerprint]
  have hkeys : (p ++ [m]).map MemorySurfacer.fingerprint =
      p.map MemorySurfacer.fingerprint ++ [MemorySurfacer.fingerprint m] := by
    rw [List.map_append]
    rfl
  have hsing : ([MemorySurfacer.fingerprint m] : List String).count
      (MemorySurfacer.fingerprint m) = 1 := by simp
  by_cases hk : MemorySurfacer.fingerprint m ∈ p.map MemorySurfacer.fingerprint
  · rw [if_pos (by rw [decide_eq_true_eq]; exact hk)]
    have hcnt1 : 0 < (p.map MemorySurfacer.fingerprint).count
        (MemorySurfacer.fingerprint m) := List.count_pos_iff.mpr hk
    unfold MemorySurfacer.annotate
    rw [List.map_append, List.map_singleton]
    have hdm : MemorySurfacer.dupFlag (p ++ [m]) m = true := by
      unfold MemorySurfacer.dupFlag
      rw [decide_eq_true_eq, hkeys, List.count_append, hsing]
      omega
    rw [hdm, if_pos rfl]
    have hmap := flagFirst_map (MemorySurfacer.fingerprint m) p
      (MemorySurfacer.dupFlag p) (MemorySurfacer.dupFlag (p ++ [m]))
      (by
        intro x hx hfx
        unfold MemorySurfacer.dupFlag
        have hz : ([MemorySurfacer.fingerprint m] : List String).count
            (MemorySurfacer.fingerprint x) = 0 := by
          rw [List.count_eq_zero]
          simp only [List.mem_singleton]
          exact hfx
        rw [hkeys, List.count_append, hz, Nat.add_zero])
      (by
        intro x hx hfx
        unfold MemorySurfacer.dupFlag
        rw [decide_eq_true_eq, hkeys, List.count_append, hfx, hsing]
        omega)
      (by
        intro h2 x hx hfx
        unfold MemorySurfacer.dupFlag
        rw [decide_eq_true_eq, hfx]
        exact h2)
    rw [← hmap]
  · rw [if_neg (by rw [decide_eq_true_eq]; exact hk)]
    have hcnt0 : (p.map MemorySurfacer.fingerprint).count
        (MemorySurfacer.fingerprint m) = 0 := List.count_eq_zero.mpr hk
    unfold MemorySurfacer.annotate
    rw [List.map_append, List.map_singleton]
    have hdm : MemorySurfacer.dupFlag (p ++ [m]) m = false := by
      unfold MemorySurfacer.dupFlag
      rw [decide_eq_false_iff_not, hkeys, List.count_append, hcnt0, hsing]
      omega
    rw [hdm]
    rw [if_neg (by exact Bool.false_ne_true)]
    congr 1
    apply List.map_congr_left
    intro x hx
    have hfx : MemorySurfacer.fingerprint x ≠ MemorySurfacer.fingerprint m := by
      intro he
      apply hk
      rw [← he]
      exact List.mem_map_of_mem MemorySurfacer.fingerprint hx
    have heq : MemorySurfacer.dupFlag (p ++ [m]) x = MemorySurfacer.dupFlag p x := by
      unfold MemorySurfacer.dupFlag
      have hz : ([MemorySurfacer.fingerprint m] : List String).count
          (MemorySurfacer.fingerprint x) = 0 := by
        rw [List.count_eq_zero]
        simp only [List.mem_singleton]
        exact hfx
      rw [hkeys, List.count_append, hz, Nat.add_zero]
    rw [heq]

/-- Helper: folding the loop body over the remaining suffix extends the
annotation of the processed prefix accordingly. -/
theorem foldl_detectStep_annotate (l p : List MemorySurfacer.SurfacedMemory) :
    List.foldl MemorySurfacer.detectStep (MemorySurfacer.annotate p) l =
      MemorySurfacer.annotate (p ++ l) := by
  induction l generalizing p with
  | nil => rw [List.append_nil, List.foldl_nil]
  | cons m rest ih =>
    rw [List.foldl_cons, detectStep_annotate, ih (p ++ [m]), List.append_assoc,
      List.singleton_append]

/-- Helper: the imperative contradiction-detection loop equals its
declarative description. -/
theorem detect_contradictions_eq_annotate
    (memories : List MemorySurfacer.SurfacedMemory) :
    MemorySurfacer.detect_contradictions memories =
      MemorySurfacer.annotate memories := by
  have h := foldl_detectStep_annotate memories []
  rw [List.nil_append] at h
  unfold MemorySurfacer.detect_contradictions
  rw [← h]
  rfl

/-- C9: after the contradiction-detection pass, a surfaced candidate whose
case-insensitive 50-character content fingerprint occurs in at least two
list positions has `may_contradict = true`, and a candidate whose
fingerprint is shared by no other candidate is returned entirely unchanged
(in particular it remains unflagged). -/
theorem detect_contradictions_flags_exactly_groups
    (memories : List MemorySurfacer.SurfacedMemory) :
    List.Forall₂ (fun m m' =>
        (2 ≤ (memories.map MemorySurfacer.fingerprint).count
            (MemorySurfacer.fingerprint m) → m'.may_contradict = true) ∧
        ((memories.map MemorySurfacer.fingerprint).count
            (MemorySurfacer.fingerprint m) ≤ 1 → m' = m))
      memories (MemorySurfacer.detect_contradictions memories) := by
  rw [detect_contradictions_eq_annotate]
  unfold MemorySurfacer.annotate
  rw [List.forall₂_map_right_iff, List.forall₂_same]
  intro m hm
  by_cases hd : MemorySurfacer.dupFlag memories m = true
  · rw [if_pos hd]
    constructor
    · intro h2
      rfl
    · intro h1
      unfold MemorySurfacer.dupFlag at hd
      rw [decide_eq_true_eq] at hd
      omega
  · rw [if_neg hd]
    constructor
    · intro h2
      exact absurd (by rw [MemorySurfacer.dupFlag, decide_eq_true_eq]; exact h2) hd
    · intro h1
      rfl

/-- C3 (amended): with `prefer_latest` enabled, a single superseded
candidate is resolved as follows — with no inbound `updates` edge it is
dropped; with a most recent inbound `updates` edge whose source record
exists and is a different record, it is replaced by that source (the
claimed behaviour); but when the source record is missing, or equals the
candidate itself (already in `seen_ids`), the stale candidate is returned
unchanged rather than dropped. -/
theorem resolve_superseded_single (st : Store) (r : Memory.SearchResult)
    (row : MemRecord) (fe : Bool)
    (hrow : GraphMemory.findMem st r.id = some row)
    (hstale : row.is_latest = false) :
    GraphMemory.search_with_graph st [r] fe true =
      (match GraphMemory.latestUpdater st r.id with
       | none => []
       | some e =>
         match GraphMemory.findMem st e.source_id with
         | some latest =>
           if latest.id ∉ [r.id] then
             [GraphMemory.attachExtensions st r.id fe
               (GraphMemory.supersedingResult latest r)]
           else [GraphMemory.attachExtensions st r.id fe r]
         | none => [GraphMemory.attachExtensions st r.id fe r]) := by
  unfold GraphMemory.search_with_graph
  rw [if_neg (by simp)]
  rw [List.foldl_cons, List.foldl_nil]
  simp only [GraphMemory.graphStep]
  rw [if_neg (by simp)]
  unfold GraphMemory.resolveLatest
  rw [if_pos rfl]
  simp only [hrow]
  rw [hstale]
  rw [if_pos rfl]
  cases GraphMemory.latestUpdater st r.id with
  | none => rfl
  | some e =>
    dsimp only
    cases GraphMemory.findMem st e.source_id with
    | none => rfl
    | some latest =>
      dsimp only
      by_cases hid : latest.id ∉ [r.id]
      · rw [if_pos hid, if_pos hid]
        rfl
      · rw [if_neg hid, if_neg hid]
        rfl

/-- C3 counterexample: when the superseding record (id 1) already occurs
earlier in the base results, the superseded candidate (id 2, not latest)
is appended unchanged — `search_with_graph` with `prefer_latest` returns a
record whose `is_latest` is false, so the claim that resolution never
returns a stale record is false at this input. -/
theorem search_with_graph_stale_result_counterexample :
    ¬ (∀ r ∈ GraphMemory.search_with_graph st3 [r1c, r2c] false true,
        ∀ m ∈ st3.memories, m.id = r.id → m.is_latest = true) := by
  intro h
  have hout : GraphMemory.search_with_graph st3 [r1c, r2c] false true = [r1c, r2c] := by
    simp [GraphMemory.search_with_graph, GraphMemory.graphStep,
      GraphMemory.resolveLatest, GraphMemory.latestUpdater, GraphMemory.findMem,
      GraphMemory.attachExtensions, st3, m1c, m2c, e12, r1c, r2c,
      List.mergeSort_singleton]
  have h2 := h r2c (by rw [hout]; simp) m2c (by simp [st3]) rfl
  simp [m2c] at h2

/-- Witness for C3: resolving the stale record 2 alone (its superseder not
previously emitted) replaces it by record 1, the source of the most recent
inbound `updates` edge. -/
theorem resolve_superseded_single_witness :
    GraphMemory.search_with_graph st3 [r2c] false true =
      [GraphMemory.attachExtensions st3 r2c.id false
        (GraphMemory.supersedingResult m1c r2c)] := by
  have h := resolve_superseded_single st3 r2c m2c false rfl rfl
  rw [h]
  have hu : GraphMemory.latestUpdater st3 r2c.id = some e12 := by
    simp [GraphMemory.latestUpdater, st3, e12, r2c, List.mergeSort_singleton]
  rw [hu]
  dsimp only
  have hf : GraphMemory.findMem st3 e12.source_id = some m1c := rfl
  rw [hf]
  dsimp only
  rw [if_pos (by simp [m1c, r2c])]

/-- Helper: `sameModuloAccess` is reflexive. -/
theorem sameModuloAccess_refl (m : MemRecord) : sameModuloAccess m m :=
  ⟨rfl, rfl, rfl, rfl, rfl, rfl, rfl, rfl, rfl, rfl⟩

/-- Helper: `sameModuloAccess` is transitive. -/
theorem sameModuloAccess_trans {a b c : MemRecord}
    (h1 : sameModuloAccess a b) (h2 : sameModuloAccess b c) :
    sameModuloAccess a c := by
  obtain ⟨e1, e2, e3, e4, e5, e6, e7, e8, e9, e10⟩ := h1
  obtain ⟨f1, f2, f3, f4, f5, f6, f7, f8, f9, f10⟩ := h2
  exact ⟨f1.trans e1, f2.trans e2, f3.trans e3, f4.trans e4, f5.trans e5,
    f6.trans e6, f7.trans e7, f8.trans e8, f9.trans e9, f10.trans e10⟩

/-- Helper: pointwise `sameModuloAccess` lists compose. -/
theorem forall₂_sameModuloAccess_trans {l1 l2 l3 : List MemRecord}
    (h1 : List.Forall₂ sameModuloAccess l1 l2)
    (h2 : List.Forall₂ sameModuloAccess l2 l3) :
    List.Forall₂ sameModuloAccess l1 l3 := by
  induction h1 generalizing l3 with
  | nil =>
    cases h2
    exact List.Forall₂.nil
  | cons hab htl ih =>
    cases h2 with
    | cons hbc htl2 => exact List.Forall₂.cons (sameModuloAccess_trans hab hbc) (ih htl2)

/-- Helper: `accessOnly` is reflexive. -/
theorem accessOnly_refl (st : Store) : accessOnly st st :=
  ⟨List.forall₂_same.mpr (fun m _ => sameModuloAccess_refl m), rfl, rfl⟩

/-- Helper: `accessOnly` is transitive. -/
theorem accessOnly_trans {s1 s2 s3 : Store}
    (h1 : accessOnly s1 s2) (h2 : accessOnly s2 s3) : accessOnly s1 s3 :=
  ⟨forall₂_sameModuloAccess_trans h1.1 h2.1, h2.2.1.trans h1.2.1,
   h2.2.2.trans h1.2.2⟩

/-- Helper: `_record_access` only touches access metadata. -/
theorem record_access_accessOnly (now : ℤ) (st : Store) (memory_id : ℕ) :
    accessOnly st (Memory.record_access now st memory_id) := by
  refine ⟨?_, rfl, rfl⟩
  show List.Forall₂ _ st.memories (st.memories.map _)
  rw [List.forall₂_map_right_iff, List.forall₂_same]
  intro m hm
  by_cases h : m.id = memory_id
  · rw [if_pos h]
    exact ⟨rfl, rfl, rfl, rfl, rfl, rfl, rfl, rfl, rfl, rfl⟩
  · rw [if_neg h]
    exact sameModuloAccess_refl m

/-- Helper: folding `_record_access` over any row list only touches access
metadata. -/
theorem foldl_record_access_accessOnly {α : Type} (now : ℤ) (f : α → ℕ) :
    ∀ (rows : List α) (st0 st : Store), accessOnly st0 st →
      accessOnly st0 (rows.foldl (fun s p => Memory.record_access now s (f p)) st) := by
  intro rows
  induction rows with
  | nil => intro st0 st h; exact h
  | cons p rest ih =>
    intro st0 st h
    rw [List.foldl_cons]
    exact ih st0 _ (accessOnly_trans h (record_access_accessOnly now st (f p)))

/-- Helper: `Memory.search` only touches access metadata of the store. -/
theorem search_accessOnly (cfg : Memory.SearchCfg) (st : Store)
    (query : String) (limit : ℕ) (min_salience : ℚ) (now : ℤ) :
    accessOnly st (Memory.search cfg st query limit min_salience now).2 := by
  unfold Memory.search
  by_cases hc : Memory.pyTruthy (cfg.embed query) = true ∧ cfg.vecAvailable = true
  · rw [if_pos hc]
    show accessOnly st ((Memory.vecRows cfg st ((cfg.embed query).getD [])
        limit min_salience).foldl (fun s p => Memory.record_access now s p.1.id) st)
    exact foldl_record_access_accessOnly now (fun p : MemRecord × ℚ => p.1.id) _ st st
      (accessOnly_refl st)
  · rw [if_neg hc]
    show accessOnly st ((Memory.keywordRows st query limit min_salience).foldl
        (fun s m => Memory.record_access now s m.id) st)
    exact foldl_record_access_accessOnly now (fun m : MemRecord => m.id) _ st st
      (accessOnly_refl st)

/-- Helper: the inner merge loop in dry-run mode only touches access
metadata (via its similarity searches). -/
theorem mergeInner_dry_accessOnly (cfg : Memory.SearchCfg) (now : ℤ)
    (mem1 : MemoryConsolidator.MergeRow) :
    ∀ (l : List MemoryConsolidator.MergeRow) (st0 : Store)
      (s : Store × List ℕ × ℕ), accessOnly st0 s.1 →
      accessOnly st0 (MemoryConsolidator.mergeInner cfg now true mem1 l s).1 := by
  intro l
  induction l with
  | nil => intro st0 s h; exact h
  | cons mem2 rest ih =>
    intro st0 s h
    obtain ⟨st, merged_ids, cnt⟩ := s
    rw [MemoryConsolidator.mergeInner]
    by_cases hmem : mem2.id ∈ merged_ids
    · rw [if_pos hmem]
      exact ih st0 _ h
    · rw [if_neg hmem]
      have hs : accessOnly st0 (Memory.search cfg st mem1.content 5 0 now).2 :=
        accessOnly_trans h (search_accessOnly cfg st mem1.content 5 0 now)
      cases (Memory.search cfg st mem1.content 5 0 now).1.find? (fun r =>
          (r.id == mem2.id) &&
          decide (r.relevance > MemoryConsolidator.MERGE_SIMILARITY_THRESHOLD)) with
      | none => exact ih st0 _ hs
      | some r =>
        rw [if_pos rfl]
        exact ih st0 _ hs

/-- Helper: the outer merge loop in dry-run mode only touches access
metadata. -/
theorem mergeOuter_dry_accessOnly (cfg : Memory.SearchCfg) (now : ℤ) :
    ∀ (l : List MemoryConsolidator.MergeRow) (st0 : Store)
      (s : Store × List ℕ × ℕ), accessOnly st0 s.1 →
      accessOnly st0 (MemoryConsolidator.mergeOuter cfg now true l s).1 := by
  intro l
  induction l with
  | nil => intro st0 s h; exact h
  | cons mem1 rest ih =>
    intro st0 s h
    obtain ⟨st, merged_ids, cnt⟩ := s
    rw [MemoryConsolidator.mergeOuter]
    by_cases hmem : mem1.id ∈ merged_ids
    · rw [if_pos hmem]
      exact ih st0 _ h
    · rw [if_neg hmem]
      exact ih st0 _ (mergeInner_dry_accessOnly cfg now mem1 rest st0 _ h)

/-- Helper: `_merge_similar` in dry-run mode only touches access
metadata. -/
theorem merge_similar_dry_accessOnly (cfg : Memory.SearchCfg) (now : ℤ)
    (st : Store) :
    accessOnly st (MemoryConsolidator.merge_similar cfg now true st).2 := by
  unfold MemoryConsolidator.merge_similar
  by_cases hlen : (MemoryConsolidator.mergeRows st).length < 2
  · rw [if_pos hlen]
    exact accessOnly_refl st
  · rw [if_neg hlen]
    exact mergeOuter_dry_accessOnly cfg now _ st _ (accessOnly_refl st)

/-- C6 (amended): a consolidation pass invoked with `dry_run = true`
deletes nothing — the record list is pointwise unchanged except possibly
`accessed_at`/`access_count` (which the merge phase's similarity searches
update and commit even in dry-run mode), and edges and embeddings are
untouched — so the reported after-count equals the before-count, which is
the store's record count.  Because that access tracking feeds the pruning
predicate (`access_count = 0`), a subsequent real run may report different
candidate counts, so full inertness, as the claim states it, fails (see
the counterexample). -/
theorem consolidate_dry_run_access_only (cfg : Memory.SearchCfg) (now : ℤ)
    (st : Store) :
    accessOnly st (MemoryConsolidator.consolidate cfg now true true true st).2 ∧
    (MemoryConsolidator.consolidate cfg now true true true st).1.memories_after =
      (MemoryConsolidator.consolidate cfg now true true true st).1.memories_before ∧
    (MemoryConsolidator.consolidate cfg now true true true st).1.memories_before =
      st.memories.length := by
  have hprune : (MemoryConsolidator.pruneStep now true true st).2 = st := rfl
  have hstate : accessOnly st (MemoryConsolidator.consolidate cfg now true true true st).2 := by
    show accessOnly st (MemoryConsolidator.mergeStep cfg now true true
      (MemoryConsolidator.pruneStep now true true st).2).2
    rw [hprune]
    show accessOnly st (MemoryConsolidator.merge_similar cfg now true st).2
    exact merge_similar_dry_accessOnly cfg now st
  refine ⟨hstate, ?_, rfl⟩
  show (MemoryConsolidator.mergeStep cfg now true true
      (MemoryConsolidator.pruneStep now true true st).2).2.memories.length =
    st.memories.length
  exact (List.Forall₂.length_eq hstate.1).symm

/-- Helper: the merge snapshot of `st6`. -/
theorem mergeRows_st6 : MemoryConsolidator.mergeRows st6 = [row61, row62] := by
  unfold MemoryConsolidator.mergeRows
  have hsorted : List.Pairwise
      (fun a b : MemoryConsolidator.MergeRow =>
        (decide (b.created_at ≤ a.created_at)) = true)
      (((st6.memories.filter (fun m =>
          (m.layer == "archive") && (Memory.lookupEmb st6 m.id).isSome)).map
        (fun m => ({ id := m.id, content := m.content,
                     memory_type := m.memory_type, salience := m.salience,
                     created_at := m.created_at } : MemoryConsolidator.MergeRow)))) := by
    show List.Pairwise _ [row61, row62]
    refine List.pairwise_cons.mpr ⟨?_, List.pairwise_singleton _ _⟩
    intro b hb
    rw [List.mem_singleton] at hb
    subst hb
    exact decide_eq_true (by norm_num [row61, row62])
  rw [List.mergeSort_of_sorted hsorted]
  rfl

/-- Helper: the keyword rows of the merge phase's first search on `st6`. -/
theorem keywordRows_st6 : Memory.keywordRows st6 "a" 5 0 = [m61] := by
  unfold Memory.keywordRows
  have hf : st6.memories.filter (fun m =>
      Memory.likeContains m.content "a" && decide ((0:ℚ) ≤ m.salience)) = [m61] := by
    show List.filter _ [m61, m62] = [m61]
    simp only [List.filter_cons, List.filter_nil]
    have h1 : (Memory.likeContains m61.content "a" &&
        decide ((0:ℚ) ≤ m61.salience)) = true := by
      rw [Bool.and_eq_true]
      exact ⟨rfl, decide_eq_true (by norm_num [m61])⟩
    have h2 : (Memory.likeContains m62.content "a" &&
        decide ((0:ℚ) ≤ m62.salience)) = false := by
      rw [show Memory.likeContains m62.content "a" = false from rfl]
      rw [Bool.false_and]
    rw [if_pos h1, if_neg (by rw [h2]; exact Bool.false_ne_true)]
  rw [hf, List.mergeSort_singleton]
  rfl

/-- Helper: the merge phase's search on `st6` returns record 1 and bumps
its access count. -/
theorem search_st6 : Memory.search cfg6 st6 "a" 5 0 7 =
    ([Memory.mkResult m61 (1/2)], Memory.record_access 7 st6 1) := by
  unfold Memory.search
  rw [if_neg (fun hc => Bool.false_ne_true hc.1)]
  show ((Memory.keywordRows st6 "a" 5 0).map (fun m => Memory.mkResult m (1/2)),
        (Memory.keywordRows st6 "a" 5 0).foldl
          (fun s m => Memory.record_access 7 s m.id) st6) = _
  rw [keywordRows_st6]
  rfl

/-- Helper: the first-found `find?` over the search results of the merge
phase fails (record 1 is not record 2, so the conjunction is false). -/
theorem find_st6 : (Memory.search cfg6 st6 row61.content 5 0 7).1.find? (fun r =>
    (r.id == row62.id) &&
    decide (r.relevance > MemoryConsolidator.MERGE_SIMILARITY_THRESHOLD)) = none := by
  rw [show row61.content = "a" from rfl, search_st6]
  rw [List.find?_cons]
  rw [show ((Memory.mkResult m61 (1/2)).id == row62.id) = false from rfl]
  rw [Bool.false_and]
  rfl

/-- Helper: the inner merge loop over `[row62]` performs one search and
merges nothing. -/
theorem mergeInner_st6 :
    MemoryConsolidator.mergeInner cfg6 7 true row61 [row62] (st6, [], 0) =
      (Memory.record_access 7 st6 1, [], 0) := by
  rw [MemoryConsolidator.mergeInner]
  rw [if_neg (by simp)]
  rw [find_st6]
  rw [show row61.content = "a" from rfl, search_st6]
  rfl

/-- Helper: the outer merge loop over the `st6` snapshot. -/
theorem mergeOuter_st6 :
    MemoryConsolidator.mergeOuter cfg6 7 true [row61, row62] (st6, [], 0) =
      (Memory.record_access 7 st6 1, [], 0) := by
  rw [MemoryConsolidator.mergeOuter]
  rw [if_neg (by simp)]
  rw [mergeInner_st6]
  rw [MemoryConsolidator.mergeOuter]
  rw [if_neg (by simp)]
  rw [MemoryConsolidator.mergeInner]
  rw [MemoryConsolidator.mergeOuter]

/-- Helper: the dry-run consolidation of `st6` ends in the
access-recorded store. -/
theorem consolidate_st6_state :
    (MemoryConsolidator.consolidate cfg6 7 true true true st6).2 =
      Memory.record_access 7 st6 1 := by
  show (MemoryConsolidator.mergeStep cfg6 7 true true
      (MemoryConsolidator.pruneStep 7 true true st6).2).2 = _
  rw [show (MemoryConsolidator.pruneStep 7 true true st6).2 = st6 from rfl]
  show (MemoryConsolidator.merge_similar cfg6 7 true st6).2 = _
  unfold MemoryConsolidator.merge_similar
  rw [if_neg (by rw [mergeRows_st6]; norm_num)]
  show (MemoryConsolidator.mergeOuter cfg6 7 true
      (MemoryConsolidator.mergeRows st6) (st6, [], 0)).1 = _
  rw [mergeRows_st6, mergeOuter_st6]

/-- C6 counterexample: a dry-run consolidation of `st6` is not inert — the
merge phase's search bumps record 1's `access_count` from 0 to 1 (and its
`accessed_at`), and the change is committed; the resulting store differs
from the input store, falsifying "fully inert ... leaves every record ...
(including access_count ...) unchanged". -/
theorem consolidate_dry_run_not_inert :
    ((MemoryConsolidator.consolidate cfg6 7 true true true st6).2.memories.map
        (fun m => m.access_count)) = [some 1, some 0] ∧
    st6.memories.map (fun m => m.access_count) = [some 0, some 0] ∧
    ¬ ((MemoryConsolidator.consolidate cfg6 7 true true true st6).2 = st6) := by
  refine ⟨?_, rfl, ?_⟩
  · rw [consolidate_st6_state]
    rfl
  · intro h
    have h2 : ((MemoryConsolidator.consolidate cfg6 7 true true true st6).2.memories.map
        (fun m => m.access_count)) = [some 0, some 0] := by
      rw [h]
      rfl
    rw [consolidate_st6_state] at h2
    rw [show ((Memory.record_access 7 st6 1).memories.map
        (fun m => m.access_count)) = [some 1, some 0] from rfl] at h2
    simp at h2

